import Mathlib

/-!
Shallow embedding of the dovecot configuration parser
(`src/lib-settings/settings.c`) and theorems about the claims of the
specification.

The embedding translates the C source line by line:

* `get_bool`, `get_uint`, `sscanf_i` model `get_bool`/`get_uint`
  (settings.c:31-51); `sscanf(value, "%i", &num)` is modelled by
  `sscanf_i` with C `strtol`-style base selection (leading C whitespace,
  optional sign, `0x` hex, `0` octal, decimal, trailing bytes ignored)
  and the machine-integer behaviour of glibc on an LP64 platform: the
  conversion is performed in a 64-bit `long` that saturates on overflow
  (`clampLong`), and the store into the 32-bit `int num` truncates in
  two's complement (`wrap32`).
* `expand_environment_vars` models settings.c:55-90.
* `parse_setting_from_defs` models settings.c:92-117; the consumer record
  written through byte offsets is modelled as a map keyed by the
  definition name (definitions are assumed to live at distinct offsets).
* `fix_relative_path` models settings.c:119-132.
* `settings_add_include` / `settings_include` model settings.c:134-205
  (the `HAVE_GLOB` build); the filesystem and `glob(3)` are oracle
  functions carried in `Env`.
* `settingsReadLoop` / `settings_read_i` model the main loop of
  `settings_read_i` (settings.c:207-434).  The recursion is driven by a
  fuel counter: one unit per loop iteration (one physical line read, or
  one EOF pop of the input stack); running out of fuel yields the
  distinguished outcome `Outcome.outOfFuel`.  Callback invocations are
  recorded in an event trace.
-/

def IS_WHITE (c : Char) : Bool := c = ' ' || c = '\t'

/-- The in-line comment stripper of settings.c:257-277.  The first
argument is `some q` while inside a quoted span opened by `q`; the Bool
flag is true when the previous character was a backslash inside a quoted
span (the next character is then copied blindly).  A `#` outside quotes
truncates the line; an unterminated quote keeps the rest of the line
(the C loop breaks out without writing a NUL). -/
def stripCommentGo : Option Char → Bool → List Char → List Char
  | _, _, [] => []
  | st, true, c :: rest => c :: stripCommentGo st false rest
  | some q, false, c :: rest =>
      if c = q then c :: stripCommentGo none false rest
      else if c = '\\' && !rest.isEmpty then c :: stripCommentGo (some q) true rest
      else c :: stripCommentGo (some q) false rest
  | none, false, c :: rest =>
      if c = '\'' || c = '"' then c :: stripCommentGo (some c) false rest
      else if c = '#' then []
      else c :: stripCommentGo none false rest

def stripComment (l : List Char) : List Char := stripCommentGo none false l

/-- `while (IS_WHITE(line[len-1])) len--;` (settings.c:279-283). -/
def trimRight (l : List Char) : List Char := (l.reverse.dropWhile IS_WHITE).reverse

/-- Modelled from the spec: `str_unescape` (called at settings.c:328) lives
in `lib/strescape.c`, which is not part of the provided sources.  Spec
4.6: inside a quoted span `\X` escapes any character `X`, and 4.7 says a
quoted value has its backslash escapes removed.  Unescaping therefore
drops each backslash and keeps the following character verbatim; a lone
trailing backslash is dropped. -/
def strUnescapeGo : Bool → List Char → List Char
  | _, [] => []
  | true, c :: rest => c :: strUnescapeGo false rest
  | false, c :: rest => if c = '\\' then strUnescapeGo true rest else c :: strUnescapeGo false rest

def str_unescape (l : List Char) : List Char := strUnescapeGo false l

/-- `p == value || IS_WHITE(p[-1])` (settings.c:69): `none` stands for the
start of the value string. -/
def prevOk : Option Char → Bool
  | none => true
  | some c => IS_WHITE c

/-- Scanner mode for `expand_environment_vars`: either copying (tracking
the previous character of the original string) or accumulating the
`$ENV:` variable name. -/
inductive EMode
  | copy (prev : Option Char)
  | name (acc : List Char)

def envLookup (getv : String → Option String) (acc : List Char) : List Char :=
  match getv (String.mk acc) with
  | some s => s.data
  | none => []

/-- Character-level translation of the loop of `expand_environment_vars`
(settings.c:55-90).  A `$` at the start of the value or after a
space/tab that begins `$ENV:` starts a variable name; the name is
terminated by the next space (`strchr(p, ' ')`) or the end of the
string.  If the name runs to the end of the string, the C code sets
`pvalue = NULL` and appends nothing after the value (the name including
terminator was the whole remainder).  Every other `$` is copied
verbatim.  The C fast path for values without `$` returns the value
unchanged, which coincides with the loop's result. -/
def expandGo (getv : String → Option String) : EMode → List Char → List Char
  | .copy _, [] => []
  | .copy prev, '$' :: 'E' :: 'N' :: 'V' :: ':' :: rest2 =>
      if prevOk prev then expandGo getv (.name []) rest2
      else '$' :: expandGo getv (.copy (some '$')) ('E' :: 'N' :: 'V' :: ':' :: rest2)
  | .copy _, '$' :: rest => '$' :: expandGo getv (.copy (some '$')) rest
  | .copy _, c :: rest => c :: expandGo getv (.copy (some c)) rest
  | .name acc, [] => envLookup getv acc
  | .name acc, ' ' :: rest => envLookup getv acc ++ ' ' :: expandGo getv (.copy (some ' ')) rest
  | .name acc, c :: rest => expandGo getv (.name (acc ++ [c])) rest

def expand_environment_vars (getv : String → Option String) (value : List Char) : List Char :=
  expandGo getv (.copy none) value

/-! ### Value coercers (settings.c:31-51) -/

def isCSpace (c : Char) : Bool :=
  c = ' ' || c = '\t' || c = '\n' || c = '\r' || c = Char.ofNat 11 || c = Char.ofNat 12

def isDigitCh (c : Char) : Bool := '0' ≤ c && c ≤ '9'
def isOctCh (c : Char) : Bool := '0' ≤ c && c ≤ '7'
def isHexCh (c : Char) : Bool :=
  isDigitCh c || ('a' ≤ c && c ≤ 'f') || ('A' ≤ c && c ≤ 'F')

def hexDigitVal (c : Char) : Nat :=
  if isDigitCh c then c.toNat - 48
  else if 'a' ≤ c && c ≤ 'f' then c.toNat - 87
  else c.toNat - 55

def digitsVal (base : Nat) (ds : List Char) : Nat :=
  ds.foldl (fun a c => base * a + hexDigitVal c) 0

/-- The number scanner behind `%i`: after whitespace and sign, a C
integer literal is read with `strtol`-style base detection (`0x`/`0X`
hex when followed by a hex digit, leading `0` octal, otherwise decimal);
scanning stops at the first character that is not a digit of the chosen
base, and fails only when no digit can be consumed at all. -/
def scanNum : List Char → Option Nat
  | [] => none
  | c :: t =>
      if c = '0' then
        match t with
        | [] => some 0
        | x :: t2 =>
            if (x = 'x' || x = 'X') && (match t2 with | [] => false | d :: _ => isHexCh d) then
              some (digitsVal 16 (t2.takeWhile isHexCh))
            else some (digitsVal 8 (t.takeWhile isOctCh))
      else if isDigitCh c then some (digitsVal 10 ((c :: t).takeWhile isDigitCh))
      else none

/-- The store into the 32-bit `int num`: two's-complement truncation of
the converted value to the C `int` (implementation-defined behaviour,
as on glibc/LP64). -/
def wrap32 (v : Int) : Int :=
  let m := v % 4294967296
  if m < 2147483648 then m else m - 4294967296

/-- `strtol` overflow saturation to the 64-bit `long` used internally by
glibc's `%i` conversion before the result is stored into `int`. -/
def clampLong (v : Int) : Int :=
  if v > 9223372036854775807 then 9223372036854775807
  else if v < -9223372036854775808 then -9223372036854775808
  else v

def sscanfList : List Char → Option Int
  | [] => none
  | c :: t =>
      if c = '-' then (scanNum t).map (fun n => wrap32 (clampLong (-(n : Int))))
      else if c = '+' then (scanNum t).map (fun n => wrap32 (clampLong (n : Int)))
      else (scanNum (c :: t)).map (fun n => wrap32 (clampLong (n : Int)))

/-- `sscanf(value, "%i", &num)` (settings.c:47): skip C whitespace, parse
an optional sign and a C integer literal; trailing characters are
ignored; the value is converted in a saturating 64-bit `long` and
stored into the 32-bit `int` with two's-complement truncation.
Returns `none` when the conversion fails. -/
def sscanf_i (s : String) : Option Int :=
  sscanfList (s.data.dropWhile isCSpace)

/-- `get_uint` (settings.c:43-51): fails with `Invalid number: <v>` when
`%i` does not match or the (wrapped 32-bit) parsed value is negative;
the result is returned only on success (the C out-parameter stays
unwritten on failure). -/
def get_uint (value : String) : Except String Nat :=
  match sscanf_i value with
  | none => .error ("Invalid number: " ++ value)
  | some n => if n < 0 then .error ("Invalid number: " ++ value) else .ok n.toNat

/-- `get_bool` (settings.c:31-41): case-insensitive `yes`/`no`. -/
def get_bool (value : String) : Except String Bool :=
  if value.data.map Char.toLower = "yes".data then .ok true
  else if value.data.map Char.toLower = "no".data then .ok false
  else .error ("Invalid boolean: " ++ value)

/-! ### Definition-driven setter (settings.c:92-117) -/

inductive SettingType
  | set_str
  | set_int
  | set_bool
deriving DecidableEq

structure SettingDef where
  name : String
  stype : SettingType

inductive SettingVal
  | vs (s : String)
  | vi (n : Nat)
  | vb (b : Bool)
deriving DecidableEq

/-- `parse_setting_from_defs` (settings.c:92-117).  The consumer record is
modelled as a map from definition names to stored values (each
definition owning a distinct offset).  Linear search, first name match
wins; a miss yields `Unknown setting: <key>`; on a coercion failure the
record is unchanged. -/
def parse_setting_from_defs (defs : List SettingDef) (base : String → Option SettingVal)
    (key value : String) : Except String (String → Option SettingVal) :=
  match defs.find? (fun d => d.name = key) with
  | none => .error ("Unknown setting: " ++ key)
  | some d =>
      match d.stype with
      | .set_str => .ok (fun k => if k = d.name then some (.vs value) else base k)
      | .set_int => (get_uint value).map (fun n k => if k = d.name then some (.vi n) else base k)
      | .set_bool => (get_bool value).map (fun b k => if k = d.name then some (.vb b) else base k)

/-! ### Input stack, includes, environment (settings.c:21-27, 119-205) -/

structure Frame where
  path : String
  lines : List String
  linenum : Nat
deriving DecidableEq

inductive OpenRes
  | ok (lines : List String)
  | err (msg : String)

inductive GlobRes
  | found (ps : List String)
  | noMatch
  | nospace
  | aborted
  | other

/-- The section callback: `onOpen` is `sect_callback(type, name, ...)`
returning the keep/skip Bool and an optional error; `onClose` is the
error produced by the `sect_callback(NULL, NULL, ...)` close
notification. -/
structure SectCb where
  onOpen : String → String → Bool × Option String
  onClose : Option String

/-- The ambient world of a parse: filesystem (`open(2)` + stream
contents, already split into lines, partial last line included),
`glob(3)`, process environment, and the two consumer callbacks
(`sectcb = none` models `null_settings_section_callback`). -/
structure Env where
  fs : String → OpenRes
  glob : String → GlobRes
  getv : String → Option String
  kvcb : String → String → Option String
  sectcb : Option SectCb

/-- `fix_relative_path` (settings.c:119-132): absolute paths pass
through; otherwise the directory part (up to and including the last
`/`) of the including frame's path is prepended; a path with no `/`
leaves the include path unchanged. -/
def fix_relative_path (path : String) (curPath : String) : String :=
  match path.data with
  | '/' :: _ => path
  | _ =>
      let rev := curPath.data.reverse.dropWhile (fun c => c != '/')
      if rev.isEmpty then path
      else String.mk (rev.reverse ++ path.data)

/-- `settings_add_include` (settings.c:134-165): walk the stack for a
frame with the same path (recursion error), then open; any open failure
is silently skipped when `ignoreErrors` is set, otherwise reported.  The
returned pair is the (possibly extended) stack and the error, matching
the C in/out pointer `inputp` plus return value. -/
def settings_add_include (E : Env) (path : String) (stack : List Frame)
    (ignoreErrors : Bool) : List Frame × Option String :=
  if stack.any (fun fr => fr.path = path) then
    (stack, some ("Recursive include file: " ++ path))
  else
    match E.fs path with
    | .err m =>
        if ignoreErrors then (stack, none)
        else (stack, some ("Couldn't open include file " ++ path ++ ": " ++ m))
    | .ok ls => (⟨path, ls, 0⟩ :: stack, none)

/-- The `for (i = 0; i < globbers.gl_pathc; i++)` loop of
`settings_include` (settings.c:194-199): push each glob match in
expansion order, aborting at the first failure (frames already pushed
stay on the stack, as in the C code). -/
def addIncludes (E : Env) (ignoreErrors : Bool) :
    List String → List Frame → List Frame × Option String
  | [], stack => (stack, none)
  | p :: ps, stack =>
      let r := settings_add_include E p stack ignoreErrors
      match r.2 with
      | none => addIncludes E ignoreErrors ps r.1
      | some m => (r.1, some m)

/-- `settings_include` (settings.c:167-205), `HAVE_GLOB` build. -/
def settings_include (E : Env) (pattern : String) (stack : List Frame)
    (ignoreErrors : Bool) : List Frame × Option String :=
  match E.glob pattern with
  | .found ps => addIncludes E ignoreErrors ps stack
  | .nospace => (stack, some "glob() failed: Not enough memory")
  | .aborted => (stack, some "glob() failed: Read error")
  | .noMatch => if ignoreErrors then (stack, none) else (stack, some "No matches")
  | .other => (stack, some "glob() failed: Unknown error")

/-! ### Logical-line classification (settings.c:299-417) -/

/-- The key extraction of settings.c:303-309: the key is the run of
non-whitespace, non-`=` bytes; whitespace after it is skipped. -/
def keySplit (cs : List Char) : List Char × List Char :=
  let key := cs.takeWhile (fun c => !IS_WHITE c && c != '=')
  (key, (cs.drop key.length).dropWhile IS_WHITE)

inductive LineForm
  | inc (tolerant : Bool) (arg : String)
  | assign (key : String) (raw : List Char)
  | secClose
  | secOpen (key : String) (name : String)
  | expectEq

/-- Classify a complete logical line, mirroring the branch structure of
settings.c:311-417: include directives first, then `key = value`, then
the lone `}`, then section opens (name optional; only the first
character after the optional name must be `{`; anything else is the
`Expecting '='` error). -/
def classify (cs : List Char) : LineForm :=
  let key := (keySplit cs).1.asString
  let rest := (keySplit cs).2
  if key = "!include_try" then .inc true rest.asString
  else if key = "!include" then .inc false rest.asString
  else
    match rest with
    | '=' :: r => .assign key (r.dropWhile IS_WHITE)
    | _ =>
        if key = "\x7d" ∧ rest = [] then .secClose
        else
          match rest with
          | '{' :: _ => .secOpen key ""
          | _ =>
              let nm := rest.takeWhile (fun c => !IS_WHITE c)
              match (rest.drop nm.length).dropWhile IS_WHITE with
              | '{' :: _ => .secOpen key nm.asString
              | _ => .expectEq

/-- The value transformation of settings.c:322-335: a value that begins
and ends with the same quote character has the outer quotes stripped and
backslash escapes removed; otherwise the value is environment-expanded.
Returns the value and the `quoted` flag. -/
def valueOf (getv : String → Option String) (raw : List Char) : List Char × Bool :=
  if raw ≠ [] ∧ ((raw.head? = some '"' ∧ raw.getLast? = some '"') ∨
      (raw.head? = some '\'' ∧ raw.getLast? = some '\'')) then
    (str_unescape ((raw.drop 1).dropLast), true)
  else (expand_environment_vars getv raw, false)

/-! ### The main loop (settings.c:207-434) -/

inductive Event
  | kv (key value : String)
  | secOpen (stype name : String)
  | secClose
deriving DecidableEq

inductive Outcome
  | success
  | failure (msg : String)
  | assertFailed
  | outOfFuel
deriving DecidableEq

structure PState where
  stack : List Frame
  fullLine : List Char
  selRem : Option (List Char)
  skip : Nat
  sections : Nat
  rootSection : Nat
  lastSection : Option (String × Nat)
  trace : List Event

def fmtLineErr (path : String) (ln : Nat) (m : String) : String :=
  "Error in configuration file " ++ path ++ " line " ++ toString ln ++ ": " ++ m

def fmtTopErr (stack : List Frame) (m : String) : String :=
  match stack with
  | fr :: _ => fmtLineErr fr.path fr.linenum m
  | [] => m

/-- One fuel unit per iteration of the `while`/`goto prevfile` loop of
`settings_read_i` (settings.c:243-431).  Faithfully modelled details:
an empty/comment physical line is skipped with the continuation buffer
`full_line` left intact; a successful include jumps back to the loop
without truncating `full_line`; include errors are reported against the
frame on top of the (possibly already extended) stack; the selector is
matched against the section *name* token at settings.c:361-374; `skip`
counts suppressed nesting; `}` at depth 0 is `Unexpected '}'`; closing
the targeted root section ends the parse successfully; the
`i_assert(sect_callback != NULL)` of settings.c:403 is the
`assertFailed` outcome. -/
def settingsReadLoop (E : Env) : Nat → PState → Outcome × List Event
  | 0, st => (.outOfFuel, st.trace)
  | fuel + 1, st =>
    match st.stack with
    | [] => (.success, st.trace)
    | fr0 :: rest =>
      match fr0.lines with
      | [] => settingsReadLoop E fuel { st with stack := rest }
      | l :: ls =>
        let fr : Frame := ⟨fr0.path, ls, fr0.linenum + 1⟩
        let stack := fr :: rest
        let cs0 := l.data.dropWhile IS_WHITE
        if cs0.isEmpty ∨ cs0.head? = some '#' then
          settingsReadLoop E fuel { st with stack := stack }
        else
          let cs := trimRight (stripComment cs0)
          if cs.getLast? = some '\\' then
            settingsReadLoop E fuel
              { st with stack := stack,
                        fullLine := st.fullLine ++ trimRight cs.dropLast ++ [' '] }
          else
            let logical := st.fullLine ++ cs
            match classify logical with
            | .inc tolerant arg =>
                let r := settings_include E (fix_relative_path arg fr.path) stack tolerant
                match r.2 with
                | none => settingsReadLoop E fuel { st with stack := r.1 }
                | some m => (.failure (fmtTopErr r.1 m), st.trace)
            | .assign key raw =>
                let v := (valueOf E.getv raw).1.asString
                if st.skip > 0 then
                  settingsReadLoop E fuel { st with stack := stack, fullLine := [] }
                else
                  let tr := st.trace ++ [Event.kv key v]
                  match E.kvcb key v with
                  | none =>
                      settingsReadLoop E fuel
                        { st with stack := stack, fullLine := [], trace := tr }
                  | some m => (.failure (fmtLineErr fr.path fr.linenum m), tr)
            | .expectEq => (.failure (fmtLineErr fr.path fr.linenum "Expecting '='"), st.trace)
            | .secOpen key nm =>
                let sections2 := st.sections + 1
                let selInfo :=
                  match st.selRem with
                  | some sel =>
                      let nxt := sel.takeWhile (fun c => c != '/')
                      if nxt = nm.data then
                        let r := sel.drop nxt.length
                        if r.isEmpty then ((none : Option (List Char)), 0, sections2)
                        else (some (r.drop 1), st.skip, st.rootSection)
                      else (some sel, st.skip, st.rootSection)
                  | none => ((none : Option (List Char)), st.skip, st.rootSection)
                let selRem2 := selInfo.1
                let skip2 := selInfo.2.1
                let root2 := selInfo.2.2
                if skip2 > 0 then
                  settingsReadLoop E fuel
                    { st with stack := stack, fullLine := [], selRem := selRem2,
                              skip := skip2 + 1, sections := sections2, rootSection := root2,
                              lastSection := some (fr.path, fr.linenum) }
                else
                  match E.sectcb with
                  | none =>
                      settingsReadLoop E fuel
                        { st with stack := stack, fullLine := [], selRem := selRem2,
                                  skip := 1, sections := sections2, rootSection := root2,
                                  lastSection := some (fr.path, fr.linenum) }
                  | some scb =>
                      let br := scb.onOpen key nm
                      let tr := st.trace ++ [Event.secOpen key nm]
                      match br.2 with
                      | some m =>
                          let m2 :=
                            match st.lastSection with
                            | some lp =>
                                m ++ " (section changed in " ++ lp.1 ++ " at line " ++
                                  toString lp.2 ++ ")"
                            | none => m
                          (.failure (fmtLineErr fr.path fr.linenum m2), tr)
                      | none =>
                          settingsReadLoop E fuel
                            { st with stack := stack, fullLine := [], selRem := selRem2,
                                      skip := (if br.1 then 0 else 1), sections := sections2,
                                      rootSection := root2,
                                      lastSection := some (fr.path, fr.linenum), trace := tr }
            | .secClose =>
                if st.sections = 0 then
                  (.failure (fmtLineErr fr.path fr.linenum "Unexpected '\x7d'"), st.trace)
                else
                  if st.skip > 0 then
                    settingsReadLoop E fuel
                      { st with stack := stack, fullLine := [], skip := st.skip - 1,
                                sections := st.sections - 1,
                                lastSection := some (fr.path, fr.linenum) }
                  else
                    match E.sectcb with
                    | none => (.assertFailed, st.trace)
                    | some scb =>
                        let tr := st.trace ++ [Event.secClose]
                        match scb.onClose with
                        | none =>
                            if st.rootSection = st.sections then (.success, tr)
                            else
                              settingsReadLoop E fuel
                                { st with stack := stack, fullLine := [],
                                          sections := st.sections - 1,
                                          lastSection := some (fr.path, fr.linenum),
                                          trace := tr }
                        | some m => (.failure (fmtLineErr fr.path fr.linenum m), tr)

/-- `settings_read_i` (settings.c:207-434): open the root file, set up
the skip state from the optional slash-separated selector, and run the
loop.  Returns the outcome together with the trace of callback
invocations. -/
def settings_read_i (E : Env) (path : String) (selArg : Option String) (fuel : Nat) :
    Outcome × List Event :=
  match E.fs path with
  | .err m => (.failure ("Can't open configuration file " ++ path ++ ": " ++ m), [])
  | .ok ls =>
      settingsReadLoop E fuel
        { stack := [⟨path, ls, 0⟩], fullLine := [],
          selRem := selArg.map String.data,
          skip := if selArg.isSome then 1 else 0,
          sections := 0, rootSection := 0, lastSection := none, trace := [] }

/-! ### Concrete environments used by the witnesses and counterexamples -/

def fsOf (l : List (String × List String)) : String → OpenRes :=
  fun p =>
    match l.find? (fun e => e.1 = p) with
    | some e => .ok e.2
    | none => .err "No such file or directory"

def envOf (l : List (String × String)) : String → Option String :=
  fun n => (l.find? (fun e => e.1 = n)).map (fun e => e.2)

def kvOk : String → String → Option String := fun _ _ => none

def sectOk : SectCb := ⟨fun _ _ => (true, none), none⟩

/-- A literal-filesystem environment: every glob pattern expands to
itself, every callback accepts. -/
def mkEnv (fsL : List (String × List String)) : Env :=
  { fs := fsOf fsL, glob := fun p => .found [p], getv := fun _ => none,
    kvcb := kvOk, sectcb := some sectOk }

/-! ### Event counting and per-line safety predicates -/

def opensIn (tr : List Event) : Nat :=
  tr.countP (fun e => match e with | .secOpen _ _ => true | _ => false)

def closesIn (tr : List Event) : Nat :=
  tr.countP (fun e => match e with | .secClose => true | _ => false)

/-- Prefix balance of an event trace: no prefix has more section-close
events than section-open events. -/
def PrefBal (tr : List Event) : Prop :=
  ∀ n, closesIn (tr.take n) ≤ opensIn (tr.take n)

/-- The scanner stages applied to one physical line (settings.c:249-283)
before continuation joining and dispatch. -/
def pipeline (l : String) : List Char :=
  trimRight (stripComment (l.data.dropWhile IS_WHITE))

/-- A physical line that neither requests continuation nor opens a
section whose name equals `s1` (the selector component currently looked
for). -/
def lineSafeB (s1 : List Char) (l : String) : Bool :=
  (pipeline l).getLast? != some '\\' &&
    (match classify (pipeline l) with
     | .secOpen _ n => n.data != s1
     | _ => true)

/-- Every line of every file of the list filesystem is `lineSafeB`. -/
def FsSafe (fsL : List (String × List String)) (s1 : List Char) : Prop :=
  ∀ e ∈ fsL, ∀ l ∈ e.2, lineSafeB s1 l = true

/-- Every line of every frame on the stack is `lineSafeB`. -/
def stackSafe (s1 : List Char) (stack : List Frame) : Prop :=
  ∀ fr ∈ stack, ∀ l ∈ fr.lines, lineSafeB s1 l = true

/-! ### Concrete environments for the witnesses and counterexamples -/

def kvNope : String → String → Option String :=
  fun k v => if k = "key" ∧ v = "v" then some "nope" else none

def sectBoom : SectCb :=
  ⟨fun t _ => if t = "bad" then (true, some "boom") else (true, none), none⟩

def envUnbalanced : Env := mkEnv [("p", ["foo \x7b"])]

def envLoneClose : Env := mkEnv [("p", ["\x7d"])]

/-- Selector plus a section callback that rejects the targeted section:
the skip-mode closes are then followed by dispatched closes. -/
def envRejectTarget : Env :=
  { mkEnv [("p", ["t a \x7b", "t b \x7b", "t c \x7b", "\x7d", "\x7d", "\x7d"])] with
    sectcb := some ⟨fun _ n => (n ≠ "c", none), none⟩ }

def envJunkLine : Env := mkEnv [("p", ["junk"])]

def envSpecScenario6 : Env :=
  mkEnv [("p", ["outer \x7b", "inner \x7b k = 1 \x7d", "other \x7b k = 2 \x7d", "\x7d"])]

def envNamedTarget : Env :=
  mkEnv [("p", ["t1 outer \x7b", "t2 inner \x7b", "k = 1", "\x7d", "\x7d"])]

def envPermDenied : Env :=
  { mkEnv [] with
    fs := fun p => if p = "root" then .ok ["!include_try f"] else .err "Permission denied" }

def envGlobNospace : Env :=
  { mkEnv [("root", ["!include_try f"])] with glob := fun _ => .nospace }

def envCycle : Env :=
  mkEnv [("a.conf", ["!include b.conf"]), ("b.conf", ["!include a.conf"])]

def envContinuation : Env := mkEnv [("p", ["a = 1 \\", "   2 # trailing"])]

def envUnterminated : Env := mkEnv [("p", ["k = \"abc"])]

def envUnterminatedEnv : Env :=
  { mkEnv [("p", ["k = \"a $ENV:HOME"])] with getv := envOf [("HOME", "/r")] }

def envOneLineSection : Env :=
  { mkEnv [("p", ["svc \x7b key = v \x7d"])] with kvcb := kvNope }

def envTwoLineSection : Env :=
  { mkEnv [("p", ["svc \x7b", "key = v"])] with kvcb := kvNope }

def envSectWrap : Env :=
  { mkEnv [("p", ["good \x7b", "bad \x7b"])] with sectcb := some sectBoom }

def envGlobOrder : Env :=
  { mkEnv [("root", ["!include sub*", "k = after"]), ("sub1", ["a = 1"]), ("sub2", ["b = 2"])] with
    glob := fun p => if p = "sub*" then .found ["sub1", "sub2"] else .found [p] }

def envGlobNomatch : Env :=
  { mkEnv [("root", ["!include_try f"])] with glob := fun _ => .noMatch }

/-- The frame `settings_add_include` builds for a successfully opened
path. -/
def frameOf (E : Env) (p : String) : Frame :=
  ⟨p, match E.fs p with | .ok ls => ls | .err _ => [], 0⟩

/-- The digit character of a value below ten. -/
def digitChar (d : Nat) : Char :=
  if d = 0 then '0' else if d = 1 then '1' else if d = 2 then '2'
  else if d = 3 then '3' else if d = 4 then '4' else if d = 5 then '5'
  else if d = 6 then '6' else if d = 7 then '7' else if d = 8 then '8' else '9'

/-- The canonical decimal digit string of a natural number (most
significant digit first, no leading zero except for `0` itself). -/
def decRepr : Nat → List Char
  | n =>
    if _h : n < 10 then [digitChar n]
    else decRepr (n / 10) ++ [digitChar (n % 10)]
decreasing_by exact Nat.div_lt_self (by omega) (by omega)

def envHomeR : Env := { mkEnv [] with getv := envOf [("HOME", "/r")] }

/-! ## Theorems -/

/-! ### Claim C6: line continuation joining -/

/-- C6 counterexample: the two physical lines `a = 1 \` and
`   2 # trailing` produce `kv("a","1 2")` with a single space between
`1` and `2`, not the claimed `kv("a","1  2")` with two spaces — the
whitespace before the continuation backslash is trimmed before the
single joining space is appended (settings.c:285-292). -/
theorem c6_counterexample :
    settings_read_i envContinuation "p" none 10 = (.success, [Event.kv "a" "1 2"]) ∧
    Event.kv "a" "1 2" ≠ Event.kv "a" "1  2" := by decide

/-- Claim C6 (amended): parsing the two physical lines `a = 1 \` and
`   2 # trailing` produces exactly one key-value event `kv("a","1 2")`
— a single space between 1 and 2, because the whitespace before the
continuation backslash is trimmed and then one joining space is
appended — and the parse succeeds. -/
theorem c6_continuation_amended :
    settings_read_i envContinuation "p" none 10 = (.success, [Event.kv "a" "1 2"]) := by
  decide

/-! ### Claim C7: unterminated quoted value -/

/-- C7 counterexample: an assignment whose value starts with a quote
that is never closed is *not* a syntax error: `k = "abc` parses
successfully and delivers the raw value `"abc`, opening quote included,
to the key-value callback. -/
theorem c7_counterexample :
    settings_read_i envUnterminated "p" none 10 =
      (.success, [Event.kv "k" "\"abc"]) := by decide

/-- Claim C7 (amended): a value with an opening quote that is never
closed before end of line is not rejected: the quote-stripping test of
settings.c:324-326 requires the first and last characters to be the
same quote, so the value is treated as unquoted, environment-expanded,
and delivered verbatim (opening quote included); the parse succeeds.
Second conjunct: such a value is even environment-expanded
(`k = "a $ENV:HOME` with `HOME=/r` delivers `"a /r`). -/
theorem c7_unterminated_amended :
    settings_read_i envUnterminated "p" none 10 =
      (.success, [Event.kv "k" "\"abc"]) ∧
    settings_read_i envUnterminatedEnv "p" none 10 =
      (.success, [Event.kv "k" "\"a /r"]) := by decide

/-! ### Claim C8: error reporting with section context -/

/-- C8 counterexample: for the one-line input `svc { key = v }` the
parser dispatches only the section-open event and then ignores the rest
of the line (settings.c:343-357 never re-examines the text after `{`),
so the key-value callback never runs and the parse *succeeds* — it does
not fail with the claimed wrapped error. -/
theorem c8_counterexample :
    settings_read_i envOneLineSection "p" none 10 =
      (.success, [Event.secOpen "svc" ""]) := by decide

/-- Claim C8 (amended): text after `{` on a section-open line is
discarded, so the scenario needs two lines `svc {` and `key = v`.  The
key-value callback's error is reported as
`Error in configuration file p line 2: nope` *without* any section
wrap: the `(section changed in ... at line ...)` enrichment
(settings.c:383-390) applies only to errors returned by the
section-open callback, as the second conjunct shows. -/
theorem c8_error_report_amended :
    settings_read_i envTwoLineSection "p" none 10 =
      (.failure "Error in configuration file p line 2: nope",
       [Event.secOpen "svc" "", Event.kv "key" "v"]) ∧
    settings_read_i envSectWrap "p" none 10 =
      (.failure "Error in configuration file p line 2: boom (section changed in p at line 1)",
       [Event.secOpen "good" "", Event.secOpen "bad" ""]) := by decide

/-! ### Claim C4: recursive include detection -/

/-- Claim C4: pushing an include whose path equals the path of any frame
already on the input stack fails with `Recursive include file: <path>`
for every environment (in particular the filesystem is never consulted,
i.e. the failure happens before the file would be opened); and for two
files `a.conf`/`b.conf` that include each other, parsing `a.conf` fails
with exactly one such error, reported at `b.conf` line 1, with zero
callbacks invoked. -/
theorem c4_recursive_include :
    (∀ (E : Env) (path : String) (stack : List Frame) (ig : Bool),
        (∃ fr ∈ stack, fr.path = path) →
        settings_add_include E path stack ig =
          (stack, some ("Recursive include file: " ++ path))) ∧
    settings_read_i envCycle "a.conf" none 10 =
      (.failure "Error in configuration file b.conf line 1: Recursive include file: a.conf",
       []) := by
  constructor
  · intro E path stack ig h
    have hany : stack.any (fun fr => fr.path = path) = true := by
      rcases h with ⟨fr, hmem, hp⟩
      exact List.any_eq_true.mpr ⟨fr, hmem, by simp [hp]⟩
    simp [settings_add_include, hany]
  · decide

/-- Witness for C4: the general part applied to a concrete stack already
containing the path `x`. -/
theorem c4_witness :
    settings_add_include envCycle "x" [⟨"x", [], 0⟩] false =
      ([⟨"x", [], 0⟩], some ("Recursive include file: " ++ "x")) :=
  c4_recursive_include.1 envCycle "x" [⟨"x", [], 0⟩] false
    ⟨⟨"x", [], 0⟩, by simp, rfl⟩

/-! ### Claim C3: tolerant include failure modes -/

/-- C3 counterexample: a tolerant include of a file whose `open` fails
with "Permission denied" — not file-not-found — is silently skipped
(settings.c:149-151 ignores *every* open failure when `ignore_errors`
is set), and the parse succeeds with no callbacks; the claim says any
open failure other than not-found still aborts. -/
theorem c3_counterexample :
    settings_read_i envPermDenied "root" none 10 = (.success, []) := by decide

/-- Claim C3 (amended): `!include_try` suppresses a glob `NOMATCH` and
*every* `open()` failure (not just file-not-found), leaving the stack
unchanged; glob allocation failures, glob read failures, unknown glob
errors, and a recursive include still abort even when tolerant, and a
tolerant glob allocation failure aborts the whole parse. -/
theorem c3_tolerant_include_amended :
    (∀ (E : Env) (pat : String) (stack : List Frame),
        E.glob pat = .noMatch → settings_include E pat stack true = (stack, none)) ∧
    (∀ (E : Env) (p : String) (stack : List Frame) (m : String),
        E.fs p = .err m → stack.any (fun fr => fr.path = p) = false →
        settings_add_include E p stack true = (stack, none)) ∧
    (∀ (E : Env) (pat : String) (stack : List Frame) (ig : Bool),
        E.glob pat = .nospace →
        settings_include E pat stack ig = (stack, some "glob() failed: Not enough memory")) ∧
    (∀ (E : Env) (pat : String) (stack : List Frame) (ig : Bool),
        E.glob pat = .aborted →
        settings_include E pat stack ig = (stack, some "glob() failed: Read error")) ∧
    (∀ (E : Env) (pat : String) (stack : List Frame) (ig : Bool),
        E.glob pat = .other →
        settings_include E pat stack ig = (stack, some "glob() failed: Unknown error")) ∧
    (∀ (E : Env) (p : String) (stack : List Frame) (ig : Bool),
        stack.any (fun fr => fr.path = p) = true →
        (settings_add_include E p stack ig).2 =
          some ("Recursive include file: " ++ p)) ∧
    settings_read_i envGlobNospace "root" none 10 =
      (.failure "Error in configuration file root line 1: glob() failed: Not enough memory",
       []) := by
  refine ⟨?_, ?_, ?_, ?_, ?_, ?_, by decide⟩
  · intro E pat stack h; simp [settings_include, h]
  · intro E p stack m hfs hany; simp [settings_add_include, hany, hfs]
  · intro E pat stack ig h; simp [settings_include, h]
  · intro E pat stack ig h; simp [settings_include, h]
  · intro E pat stack ig h; simp [settings_include, h]
  · intro E p stack ig hany; simp [settings_add_include, hany]

/-- Witness for C3: each hypothesis-bearing part applied at concrete
inputs. -/
theorem c3_witness :
    settings_include envGlobNomatch "f" [] true = ([], none) ∧
    settings_add_include envPermDenied "f" [] true = ([], none) ∧
    settings_include envGlobNospace "f" [] true =
      ([], some "glob() failed: Not enough memory") ∧
    (settings_add_include envPermDenied "f" [⟨"f", [], 0⟩] true).2 =
      some ("Recursive include file: " ++ "f") :=
  ⟨c3_tolerant_include_amended.1 envGlobNomatch "f" [] rfl,
   c3_tolerant_include_amended.2.1 envPermDenied "f" [] "Permission denied" rfl rfl,
   c3_tolerant_include_amended.2.2.1 envGlobNospace "f" [] true rfl,
   c3_tolerant_include_amended.2.2.2.2.2.1 envPermDenied "f" [⟨"f", [], 0⟩] true (by decide)⟩

/-! ### Claim C2 counterexample -/

/-- C2 counterexample: with selector `x` and the single line `junk`, no
section matches the selector, yet the parse does not return success: a
line that is neither an assignment, an include, a section brace nor `}`
raises `Expecting '='` even while skipping (settings.c:357-358), so the
claimed "non-matching selector always yields success" is false.  (The
spec's own targeted-parse scenario also fails: selecting
`outer/inner` in `outer { inner { k = 1 } ... }` dispatches zero
callbacks, because the selector is compared with section *names*, not
section types — second conjunct.) -/
theorem c2_counterexample :
    settings_read_i envJunkLine "p" (some "x") 10 =
      (.failure "Error in configuration file p line 1: Expecting '='", []) ∧
    settings_read_i envSpecScenario6 "p" (some "outer/inner") 20 = (.success, []) := by
  decide

/-! ### Claim C9 counterexample -/

/-- C9 counterexample: `get_uint "0x10"` succeeds with 16 — `%i` also
accepts hexadecimal — although the claim says everything other than
decimal and octal representations fails. -/
theorem c9_counterexample : get_uint "0x10" = .ok 16 := rfl

/-! ### Claim C1 counterexample -/

/-- C1 counterexample: the single line `foo {` — one section-open event,
no close — parses *successfully*: `settings_read_i` has no
end-of-input balance check (settings.c:428-433 just returns
`errormsg == NULL`), so an unmatched `{` does not make the parse fail
and the open/close event counts differ on a successful parse. -/
theorem c1_counterexample :
    settings_read_i envUnbalanced "p" none 10 = (.success, [Event.secOpen "foo" ""]) ∧
    opensIn [Event.secOpen "foo" ""] ≠ closesIn [Event.secOpen "foo" ""] := by decide

/-! ### Claim C10: glob expansion push order -/

/-- Claim C10: when a glob expands to several files, each match is
pushed onto the input stack in expansion order — so the resulting stack
is the reversed match list on top of the old stack — and parsing
resumes at the top of the stack; consequently the contents of the last
matched file are dispatched first and the first matched file last,
before control returns to the including file, as the concrete run
(matches `sub1`, `sub2`; events from `sub2`, then `sub1`, then the rest
of the including file) shows. -/
theorem c10_include_order :
    (∀ (E : Env) (ps : List String) (stack : List Frame) (ig : Bool),
        ps.Nodup →
        (∀ p ∈ ps, (∃ ls, E.fs p = .ok ls) ∧ ∀ fr ∈ stack, fr.path ≠ p) →
        addIncludes E ig ps stack = ((ps.map (frameOf E)).reverse ++ stack, none)) ∧
    settings_read_i envGlobOrder "root" none 20 =
      (.success, [Event.kv "b" "2", Event.kv "a" "1", Event.kv "k" "after"]) := by
  constructor
  · intro E ps
    induction ps with
    | nil => intro stack ig _ _; simp [addIncludes]
    | cons p ps ih =>
        intro stack ig hnd hok
        obtain ⟨hok1, hok2⟩ := hok p (by simp)
        obtain ⟨ls, hls⟩ := hok1
        have hany : stack.any (fun fr => fr.path = p) = false := by
          rcases h : stack.any (fun fr => fr.path = p) with _ | _
          · rfl
          · exfalso
            obtain ⟨fr, hmem, hp⟩ := List.any_eq_true.mp h
            exact hok2 fr hmem (by simpa using hp)
        have hadd : settings_add_include E p stack ig = (⟨p, ls, 0⟩ :: stack, none) := by
          simp [settings_add_include, hany, hls]
        have hfr : frameOf E p = ⟨p, ls, 0⟩ := by simp [frameOf, hls]
        have hrec : addIncludes E ig ps (⟨p, ls, 0⟩ :: stack) =
            ((ps.map (frameOf E)).reverse ++ (⟨p, ls, 0⟩ :: stack), none) := by
          refine ih (⟨p, ls, 0⟩ :: stack) ig (List.Nodup.of_cons hnd) ?_
          intro q hq
          refine ⟨(hok q (List.mem_cons_of_mem _ hq)).1, ?_⟩
          intro fr hfr2
          rw [List.mem_cons] at hfr2
          rcases hfr2 with rfl | hfr2
          · intro hqp
            change p = q at hqp
            exact (List.nodup_cons.mp hnd).1 (by rw [hqp]; exact hq)
          · exact (hok q (List.mem_cons_of_mem _ hq)).2 fr hfr2
        have hstep : addIncludes E ig (p :: ps) stack =
            addIncludes E ig ps (⟨p, ls, 0⟩ :: stack) := by
          simp [addIncludes, hadd]
        rw [hstep, hrec]
        simp [hfr, List.append_assoc]
  · decide

/-- Witness for C10: the push-order law applied to the two concrete glob
matches of `envGlobOrder`. -/
theorem c10_witness :
    addIncludes envGlobOrder false ["sub1", "sub2"] [] =
      ((["sub1", "sub2"].map (frameOf envGlobOrder)).reverse ++ [], none) := by
  refine c10_include_order.1 envGlobOrder ["sub1", "sub2"] [] false (by decide) ?_
  intro p hp
  fin_cases hp
  · exact ⟨⟨["a = 1"], rfl⟩, by intro fr h; cases h⟩
  · exact ⟨⟨["b = 2"], rfl⟩, by intro fr h; cases h⟩

/-! ### Claim C9: parse-uint -/

theorem isDigit_digitChar (d : Nat) (h : d < 10) : isDigitCh (digitChar d) = true := by
  interval_cases d <;> decide

theorem hexVal_digitChar (d : Nat) (h : d < 10) : hexDigitVal (digitChar d) = d := by
  interval_cases d <;> decide

theorem digitChar_ne_zero (d : Nat) (h1 : 1 ≤ d) (h2 : d < 10) : digitChar d ≠ '0' := by
  interval_cases d <;> decide

theorem digit_not_space (c : Char) (h : isDigitCh c = true) : isCSpace c = false := by
  cases hsp : isCSpace c
  · rfl
  · exfalso
    simp only [isCSpace, Bool.or_eq_true, decide_eq_true_eq] at hsp
    rcases hsp with ((((h1 | h1) | h1) | h1) | h1) | h1 <;> rw [h1] at h <;>
      exact absurd h (by decide)

theorem digit_ne_minus (c : Char) (h : isDigitCh c = true) : c ≠ '-' := by
  intro heq; rw [heq] at h; exact absurd h (by decide)

theorem digit_ne_plus (c : Char) (h : isDigitCh c = true) : c ≠ '+' := by
  intro heq; rw [heq] at h; exact absurd h (by decide)

theorem takeWhile_all {α : Type} (p : α → Bool) :
    ∀ l : List α, (∀ x ∈ l, p x = true) → l.takeWhile p = l := by
  intro l
  induction l with
  | nil => intro _; rfl
  | cons a t ih =>
      intro h
      simp [List.takeWhile_cons, h a (List.mem_cons_self a t),
        ih (fun x hx => h x (List.mem_cons_of_mem _ hx))]

theorem decRepr_shape : ∀ n : Nat, ∃ c t, decRepr n = c :: t ∧ isDigitCh c = true ∧
    (1 ≤ n → c ≠ '0') ∧ (∀ x ∈ decRepr n, isDigitCh x = true) := by
  intro n
  induction n using Nat.strong_induction_on with
  | _ n ih =>
    rw [decRepr]
    by_cases h : n < 10
    · refine ⟨digitChar n, [], by simp [h], isDigit_digitChar n h, ?_, ?_⟩
      · intro h1; exact digitChar_ne_zero n h1 h
      · intro x hx
        rw [dif_pos h] at hx
        simp only [List.mem_singleton] at hx
        rw [hx]; exact isDigit_digitChar n h
    · obtain ⟨c, t, hct, hdig, hnz, hall⟩ := ih (n / 10) (Nat.div_lt_self (by omega) (by omega))
      have h10 : 1 ≤ n / 10 := Nat.one_le_div_iff (by omega) |>.mpr (by omega)
      refine ⟨c, t ++ [digitChar (n % 10)], ?_, hdig, fun _ => hnz h10, ?_⟩
      · rw [dif_neg h, hct]; rfl
      · intro x hx
        rw [dif_neg h] at hx
        rcases List.mem_append.mp hx with hx | hx
        · exact hall x hx
        · simp only [List.mem_singleton] at hx
          rw [hx]; exact isDigit_digitChar _ (Nat.mod_lt _ (by omega))

theorem digitsVal10_decRepr : ∀ n : Nat, digitsVal 10 (decRepr n) = n := by
  intro n
  induction n using Nat.strong_induction_on with
  | _ n ih =>
    rw [decRepr]
    by_cases h : n < 10
    · rw [dif_pos h]
      simp [digitsVal, hexVal_digitChar n h]
    · rw [dif_neg h]
      unfold digitsVal
      rw [List.foldl_append]
      have := ih (n / 10) (Nat.div_lt_self (by omega) (by omega))
      unfold digitsVal at this
      rw [this]
      simp [hexVal_digitChar (n % 10) (Nat.mod_lt _ (by omega))]
      omega

/-- For values representable in the 32-bit `int`, the `long` conversion
and the truncating store are the identity. -/
theorem wrap32_clamp_id (n : Nat) (hn : n < 2147483648) :
    wrap32 (clampLong (n : Int)) = (n : Int) := by
  have h0 : (0 : Int) ≤ (n : Int) := Int.ofNat_nonneg n
  have h1 : (n : Int) < 2147483648 := by exact_mod_cast hn
  have hcl : clampLong (n : Int) = (n : Int) := by
    unfold clampLong
    rw [if_neg (by omega), if_neg (by omega)]
  rw [hcl]
  unfold wrap32
  dsimp only
  rw [Int.emod_eq_of_lt h0 (by omega), if_pos h1]

/-- Claim C9 (amended): `get_uint` implements C `sscanf` `%i` semantics
on an LP64 glibc platform: it accepts the decimal representation of
every non-negative integer that fits the 32-bit `int` (first conjunct,
for all `n < 2^31`), but also octal (`010` = 8), hexadecimal (`0x10` =
16, contrary to the original claim), leading C whitespace and trailing
garbage (`  12abc` = 12); a negative number or a string with no integer
prefix fails with `Invalid number: <v>`; a decimal that overflows the
32-bit `int` is *not* handled as the mathematical value: `2147483648`
wraps to a negative `int` and is rejected, while `4294967296` wraps to
0 and is accepted as 0; and the `SET_INT` path of
`parse_setting_from_defs` stores whatever `get_uint` accepts, hex
included. -/
theorem c9_parse_uint_amended :
    (∀ n : Nat, n < 2147483648 → get_uint (String.mk (decRepr n)) = .ok n) ∧
    get_uint "0x10" = .ok 16 ∧
    get_uint "010" = .ok 8 ∧
    get_uint "  12abc" = .ok 12 ∧
    get_uint "-5" = .error "Invalid number: -5" ∧
    get_uint "abc" = .error "Invalid number: abc" ∧
    get_uint "2147483648" = .error "Invalid number: 2147483648" ∧
    get_uint "4294967296" = .ok 0 ∧
    (parse_setting_from_defs [⟨"m", .set_int⟩] (fun _ => none) "m" "0x10").map
        (fun f => f "m") = .ok (some (.vi 16)) := by
  refine ⟨?_, rfl, rfl, rfl, rfl, rfl, rfl, rfl, rfl⟩
  intro n hn
  obtain ⟨c, t, hct, hdig, hnz, hall⟩ := decRepr_shape n
  have hdataeq : (String.mk (decRepr n)).data = decRepr n := rfl
  by_cases hzero : n = 0
  · subst hzero
    have h0 : decRepr 0 = ['0'] := by
      rw [decRepr, dif_pos (show (0 : Nat) < 10 by norm_num)]
      rfl
    rw [h0]
    rfl
  · have hne0 : c ≠ '0' := hnz (by omega)
    have hdrop : (decRepr n).dropWhile isCSpace = decRepr n := by
      rw [hct]
      simp [List.dropWhile_cons, digit_not_space c hdig]
    have htake : (decRepr n).takeWhile isDigitCh = decRepr n := takeWhile_all _ _ hall
    have hscan : scanNum (decRepr n) = some n := by
      rw [hct]
      simp only [scanNum]
      rw [if_neg hne0, if_pos hdig, ← hct, htake, digitsVal10_decRepr]
    have hss : sscanf_i (String.mk (decRepr n)) = some (n : Int) := by
      unfold sscanf_i
      rw [hdataeq, hdrop, hct]
      simp only [sscanfList]
      rw [if_neg (digit_ne_minus c hdig), if_neg (digit_ne_plus c hdig), ← hct, hscan]
      show some (wrap32 (clampLong (n : Int))) = some (n : Int)
      rw [wrap32_clamp_id n hn]
    simp [get_uint, hss]

/-- Witness for C9: the bounded decimal-acceptance law applied at a
concrete value that fits the 32-bit `int`. -/
theorem c9_witness : get_uint (String.mk (decRepr 12345)) = .ok 12345 :=
  c9_parse_uint_amended.1 12345 (by norm_num)

/-! ### Claim C2: selector targeting -/

theorem fsOf_ok_mem (fsL : List (String × List String)) (p : String) (ls : List String)
    (h : fsOf fsL p = .ok ls) : ∃ e ∈ fsL, e.2 = ls := by
  unfold fsOf at h
  cases hf : fsL.find? (fun e => e.1 = p) with
  | none => rw [hf] at h; cases h
  | some e =>
      rw [hf] at h
      cases h
      exact ⟨e, List.mem_of_find?_eq_some hf, rfl⟩

theorem add_include_safe (fsL : List (String × List String)) (s1 : List Char) (E : Env)
    (hE : E.fs = fsOf fsL) (hfs : FsSafe fsL s1) (p : String) (stack : List Frame) (ig : Bool)
    (hs : stackSafe s1 stack) : stackSafe s1 (settings_add_include E p stack ig).1 := by
  unfold settings_add_include
  by_cases hany : stack.any (fun fr => fr.path = p) = true
  · simp [hany]; exact hs
  · rw [if_neg hany]
    cases hopen : E.fs p with
    | err m => cases ig <;> simp [hs]
    | ok ls =>
        simp only
        intro fr hfr
        rw [List.mem_cons] at hfr
        rcases hfr with rfl | hfr
        · intro l hl
          rw [hE] at hopen
          obtain ⟨e, hmem, hls⟩ := fsOf_ok_mem fsL p ls hopen
          exact hfs e hmem l (by rw [hls]; exact hl)
        · exact hs fr hfr

theorem addIncludes_safe (fsL : List (String × List String)) (s1 : List Char) (E : Env)
    (hE : E.fs = fsOf fsL) (hfs : FsSafe fsL s1) (ig : Bool) :
    ∀ (ps : List String) (stack : List Frame), stackSafe s1 stack →
      stackSafe s1 (addIncludes E ig ps stack).1 := by
  intro ps
  induction ps with
  | nil => intro stack hs; simpa [addIncludes] using hs
  | cons p ps ih =>
      intro stack hs
      have h1 := add_include_safe fsL s1 E hE hfs p stack ig hs
      unfold addIncludes
      rcases hr : settings_add_include E p stack ig with ⟨st2, e2⟩
      rw [hr] at h1
      cases e2 with
      | none => exact ih st2 h1
      | some m => exact h1

theorem include_safe (fsL : List (String × List String)) (s1 : List Char) (E : Env)
    (hE : E.fs = fsOf fsL) (hfs : FsSafe fsL s1) (pat : String) (stack : List Frame) (ig : Bool)
    (hs : stackSafe s1 stack) : stackSafe s1 (settings_include E pat stack ig).1 := by
  unfold settings_include
  cases E.glob pat with
  | found ps => exact addIncludes_safe fsL s1 E hE hfs ig ps stack hs
  | noMatch => cases ig <;> simpa using hs
  | nospace => simpa using hs
  | aborted => simpa using hs
  | other => simpa using hs

/-- When no line of the filesystem can open a section named like the
first selector component (and no line requests continuation), the
parser never leaves skip mode and the trace never grows. -/
theorem c2_nomatch_loop (fsL : List (String × List String)) (glob : String → GlobRes)
    (getv : String → Option String) (kv : String → String → Option String)
    (sect : Option SectCb) (sel : List Char)
    (hfs : FsSafe fsL (sel.takeWhile (fun c => c != '/'))) :
    ∀ fuel : Nat, ∀ st : PState,
      stackSafe (sel.takeWhile (fun c => c != '/')) st.stack →
      st.selRem = some sel → st.skip = st.sections + 1 → st.fullLine = [] →
      (settingsReadLoop ⟨fsOf fsL, glob, getv, kv, sect⟩ fuel st).2 = st.trace := by
  intro fuel
  induction fuel with
  | zero => intro st _ _ _ _; rfl
  | succ fuel ih =>
      intro st hsafe hsel hskip hfull
      obtain ⟨stack, fullLine, selRem, skip, sections, root, lastS, trace⟩ := st
      dsimp only at hsafe hsel hskip hfull ⊢
      subst hsel hskip hfull
      cases stack with
      | nil => rfl
      | cons fr0 rest =>
          obtain ⟨path, lines, linenum⟩ := fr0
          cases lines with
          | nil =>
              exact ih _ (fun fr hfr => hsafe fr (List.mem_cons_of_mem _ hfr)) rfl rfl rfl
          | cons l ls =>
              have hl : lineSafeB (sel.takeWhile (fun c => c != '/')) l = true :=
                hsafe _ (List.mem_cons_self _ _) l (List.mem_cons_self _ _)
              rw [lineSafeB, Bool.and_eq_true] at hl
              have hsafe2 : stackSafe (sel.takeWhile (fun c => c != '/'))
                  (⟨path, ls, linenum + 1⟩ :: rest) := by
                intro fr hfr
                rw [List.mem_cons] at hfr
                rcases hfr with rfl | hfr
                · intro l2 hl2
                  exact hsafe _ (List.mem_cons_self _ _) l2 (List.mem_cons_of_mem _ hl2)
                · exact hsafe fr (List.mem_cons_of_mem _ hfr)
              rw [settingsReadLoop]
              dsimp only
              by_cases hcom : (l.data.dropWhile IS_WHITE).isEmpty = true ∨
                  (l.data.dropWhile IS_WHITE).head? = some '#'
              · rw [if_pos hcom]
                exact ih _ hsafe2 rfl rfl rfl
              · rw [if_neg hcom]
                have hcont : ¬ ((trimRight (stripComment (l.data.dropWhile IS_WHITE))).getLast? =
                    some '\\') := by
                  have := hl.1
                  rw [pipeline] at this
                  exact bne_iff_ne.mp this
                rw [if_neg hcont]
                simp only [List.nil_append]
                have hcls := hl.2
                rw [pipeline] at hcls
                cases hcl : classify (trimRight (stripComment (l.data.dropWhile IS_WHITE))) with
                | inc tol arg =>
                    dsimp only
                    have hsafe3 := include_safe fsL (sel.takeWhile (fun c => c != '/'))
                      ⟨fsOf fsL, glob, getv, kv, sect⟩ rfl hfs
                      (fix_relative_path arg path) (⟨path, ls, linenum + 1⟩ :: rest) tol hsafe2
                    cases hr : (settings_include ⟨fsOf fsL, glob, getv, kv, sect⟩
                        (fix_relative_path arg path) (⟨path, ls, linenum + 1⟩ :: rest) tol).2 with
                    | none => exact ih _ hsafe3 rfl rfl rfl
                    | some m => rfl
                | assign key raw =>
                    dsimp only
                    rw [if_pos (Nat.succ_pos sections)]
                    exact ih _ hsafe2 rfl rfl rfl
                | expectEq => rfl
                | secOpen key nm =>
                    dsimp only
                    rw [hcl] at hcls
                    have hne : ¬ (sel.takeWhile (fun c => c != '/') = nm.data) := by
                      intro h
                      exact bne_iff_ne.mp hcls h.symm
                    rw [if_neg hne]
                    dsimp only
                    rw [if_pos (Nat.succ_pos sections)]
                    exact ih _ hsafe2 rfl rfl rfl
                | secClose =>
                    dsimp only
                    by_cases h0 : sections = 0
                    · rw [if_pos h0]
                    · rw [if_neg h0, if_pos (Nat.succ_pos sections)]
                      exact ih _ hsafe2 rfl (by dsimp only; omega) rfl

/-- Claim C2 (amended): the selector is compared with section *name*
tokens (`TYPE NAME {`), not section types, and a component may match at
any depth.  (a) If no line of the filesystem opens a section whose name
equals the first selector component (and no line uses continuation),
zero callbacks are invoked, whatever the outcome.  (b) When the
selector path exists (as names), the dispatched events are exactly the
targeted section's own open, its body events and its close, after which
parsing ends successfully; enclosing sections' opens are not
dispatched.  (c) A non-matching selector yields success with zero
callbacks when no syntax or include error occurs, as on the spec's own
targeted-parse input, whose `TYPE {` sections all have empty names. -/
theorem c2_targeting_amended :
    (∀ (fsL : List (String × List String)) (glob : String → GlobRes)
        (getv : String → Option String) (kv : String → String → Option String)
        (sect : Option SectCb) (path sel : String) (fuel : Nat),
        FsSafe fsL (sel.data.takeWhile (fun c => c != '/')) →
        (settings_read_i ⟨fsOf fsL, glob, getv, kv, sect⟩ path (some sel) fuel).2 = []) ∧
    settings_read_i envNamedTarget "p" (some "outer/inner") 20 =
      (.success, [Event.secOpen "t2" "inner", Event.kv "k" "1", Event.secClose]) ∧
    settings_read_i envSpecScenario6 "p" (some "outer/inner") 20 = (.success, []) := by
  refine ⟨?_, by decide, by decide⟩
  intro fsL glob getv kv sect path sel fuel hfs
  unfold settings_read_i
  dsimp only
  cases hopen : fsOf fsL path with
  | err m => rfl
  | ok ls =>
      apply c2_nomatch_loop fsL glob getv kv sect sel.data hfs fuel
      · intro fr hfr
        rw [List.mem_singleton] at hfr
        subst hfr
        intro l hl
        obtain ⟨e, hmem, hls⟩ := fsOf_ok_mem fsL path ls hopen
        exact hfs e hmem l (by rw [hls]; exact hl)
      · rfl
      · rfl
      · rfl

/-- Witness for C2: the no-match law applied to a one-line filesystem
and the selector `nosuch`. -/
theorem c2_witness :
    (settings_read_i
        ⟨fsOf [("p", ["k = v"])], fun p => .found [p], fun _ => none, kvOk, some sectOk⟩
        "p" (some "nosuch") 10).2 = [] := by
  refine c2_targeting_amended.1 [("p", ["k = v"])] _ _ _ _ "p" "nosuch" 10 ?_
  unfold FsSafe
  decide

/-! ### Claim C1: section open/close balance -/

theorem opensIn_append (a b : List Event) : opensIn (a ++ b) = opensIn a + opensIn b :=
  List.countP_append _ _ _

theorem closesIn_append (a b : List Event) : closesIn (a ++ b) = closesIn a + closesIn b :=
  List.countP_append _ _ _

theorem take_append_single (tr : List Event) (e : Event) (n : Nat) :
    (tr ++ [e]).take n = tr.take n ∨ (tr ++ [e]).take n = tr ++ [e] := by
  by_cases h : n ≤ tr.length
  · left; exact List.take_append_of_le_length h
  · right
    apply List.take_of_length_le
    simp only [List.length_append, List.length_singleton]
    omega

theorem counts_le_of_prefBal (tr : List Event) (h : PrefBal tr) :
    closesIn tr ≤ opensIn tr := by
  have := h tr.length
  rwa [List.take_length] at this

theorem prefBal_append_kv (tr : List Event) (k v : String) (h : PrefBal tr) :
    PrefBal (tr ++ [Event.kv k v]) := by
  intro n
  rcases take_append_single tr (Event.kv k v) n with heq | heq <;> rw [heq]
  · exact h n
  · rw [opensIn_append, closesIn_append]
    have hc := counts_le_of_prefBal tr h
    have e1 : opensIn [Event.kv k v] = 0 := rfl
    have e2 : closesIn [Event.kv k v] = 0 := rfl
    omega

theorem prefBal_append_open (tr : List Event) (a b : String) (h : PrefBal tr) :
    PrefBal (tr ++ [Event.secOpen a b]) := by
  intro n
  rcases take_append_single tr (Event.secOpen a b) n with heq | heq <;> rw [heq]
  · exact h n
  · rw [opensIn_append, closesIn_append]
    have hc := counts_le_of_prefBal tr h
    have e1 : opensIn [Event.secOpen a b] = 1 := rfl
    have e2 : closesIn [Event.secOpen a b] = 0 := rfl
    omega

theorem prefBal_append_close (tr : List Event) (h : PrefBal tr)
    (hlt : closesIn tr < opensIn tr) : PrefBal (tr ++ [Event.secClose]) := by
  intro n
  rcases take_append_single tr Event.secClose n with heq | heq <;> rw [heq]
  · exact h n
  · rw [opensIn_append, closesIn_append]
    have e1 : opensIn [Event.secClose] = 0 := rfl
    have e2 : closesIn [Event.secClose] = 1 := rfl
    omega

/-- With a null section callback, the loop never emits section events:
section opens at `skip = 0` just enter skip mode, and a section close at
`skip = 0` trips the assertion. -/
theorem c1_nosect_loop (E : Env) (hE : E.sectcb = none) :
    ∀ fuel : Nat, ∀ st : PState, opensIn st.trace = 0 → closesIn st.trace = 0 →
      opensIn (settingsReadLoop E fuel st).2 = 0 ∧
        closesIn (settingsReadLoop E fuel st).2 = 0 := by
  intro fuel
  induction fuel with
  | zero => intro st h1 h2; exact ⟨h1, h2⟩
  | succ fuel ih =>
      intro st h1 h2
      obtain ⟨stack, fullLine, selRem, skip, sections, root, lastS, trace⟩ := st
      dsimp only at h1 h2 ⊢
      cases stack with
      | nil => exact ⟨h1, h2⟩
      | cons fr0 rest =>
          obtain ⟨path, lines, linenum⟩ := fr0
          cases lines with
          | nil => exact ih _ h1 h2
          | cons l ls =>
              rw [settingsReadLoop]
              dsimp only
              by_cases hcom : (l.data.dropWhile IS_WHITE).isEmpty = true ∨
                  (l.data.dropWhile IS_WHITE).head? = some '#'
              · rw [if_pos hcom]; exact ih _ h1 h2
              · rw [if_neg hcom]
                by_cases hcont : (trimRight (stripComment (l.data.dropWhile IS_WHITE))).getLast? =
                    some '\\'
                · rw [if_pos hcont]; exact ih _ h1 h2
                · rw [if_neg hcont]
                  cases hcl : classify (fullLine ++ trimRight (stripComment
                      (l.data.dropWhile IS_WHITE))) with
                  | inc tol arg =>
                      dsimp only
                      cases (settings_include E (fix_relative_path arg path)
                          (⟨path, ls, linenum + 1⟩ :: rest) tol).2 with
                      | none => exact ih _ h1 h2
                      | some m => exact ⟨h1, h2⟩
                  | assign key raw =>
                      dsimp only
                      by_cases hsk : skip > 0
                      · rw [if_pos hsk]; exact ih _ h1 h2
                      · rw [if_neg hsk]
                        have hkv1 : opensIn (trace ++ [Event.kv key
                            (valueOf E.getv raw).1.asString]) = 0 := by
                          rw [opensIn_append, h1]; rfl
                        have hkv2 : closesIn (trace ++ [Event.kv key
                            (valueOf E.getv raw).1.asString]) = 0 := by
                          rw [closesIn_append, h2]; rfl
                        cases E.kvcb key (valueOf E.getv raw).1.asString with
                        | none => exact ih _ hkv1 hkv2
                        | some m => exact ⟨hkv1, hkv2⟩
                  | expectEq => exact ⟨h1, h2⟩
                  | secOpen key nm =>
                      dsimp only
                      by_cases hsk : (match selRem with
                          | some sel =>
                              let nxt := sel.takeWhile (fun c => c != '/')
                              if nxt = nm.data then
                                let r := sel.drop nxt.length
                                if r.isEmpty then ((none : Option (List Char)), 0, sections + 1)
                                else (some (r.drop 1), skip, root)
                              else (some sel, skip, root)
                          | none => ((none : Option (List Char)), skip, root)).2.1 > 0
                      · rw [if_pos hsk]; exact ih _ h1 h2
                      · rw [if_neg hsk, hE]
                        exact ih _ h1 h2
                  | secClose =>
                      dsimp only
                      by_cases h0 : sections = 0
                      · rw [if_pos h0]; exact ⟨h1, h2⟩
                      · rw [if_neg h0]
                        by_cases hsk : skip > 0
                        · rw [if_pos hsk]; exact ih _ h1 h2
                        · rw [if_neg hsk, hE]
                          exact ⟨h1, h2⟩

/-- Without a selector, the event trace stays prefix-balanced: writing
`o`/`c` for the open/close event counts and `s`/`k` for the
`sections`/`skip` counters, the loop maintains `c + s ≤ o` when `k = 0`
and `c + s + 1 ≤ o + k` when `k ≥ 1`, and a close event is only emitted
when `c < o`. -/
theorem c1_balance_loop (E : Env) (scb : SectCb) (hE : E.sectcb = some scb) :
    ∀ fuel : Nat, ∀ st : PState,
      st.selRem = none → st.rootSection = 0 →
      PrefBal st.trace →
      (st.skip = 0 → closesIn st.trace + st.sections ≤ opensIn st.trace) →
      (1 ≤ st.skip → closesIn st.trace + st.sections + 1 ≤ opensIn st.trace + st.skip) →
      PrefBal (settingsReadLoop E fuel st).2 := by
  intro fuel
  induction fuel with
  | zero => intro st _ _ hbal _ _; exact hbal
  | succ fuel ih =>
      intro st hsel hroot hbal hc0 hc1
      obtain ⟨stack, fullLine, selRem, skip, sections, root, lastS, trace⟩ := st
      dsimp only at hsel hroot hbal hc0 hc1 ⊢
      subst hsel hroot
      cases stack with
      | nil => exact hbal
      | cons fr0 rest =>
          obtain ⟨path, lines, linenum⟩ := fr0
          cases lines with
          | nil => exact ih _ rfl rfl hbal hc0 hc1
          | cons l ls =>
              rw [settingsReadLoop]
              dsimp only
              by_cases hcom : (l.data.dropWhile IS_WHITE).isEmpty = true ∨
                  (l.data.dropWhile IS_WHITE).head? = some '#'
              · rw [if_pos hcom]; exact ih _ rfl rfl hbal hc0 hc1
              · rw [if_neg hcom]
                by_cases hcont : (trimRight (stripComment (l.data.dropWhile IS_WHITE))).getLast? =
                    some '\\'
                · rw [if_pos hcont]; exact ih _ rfl rfl hbal hc0 hc1
                · rw [if_neg hcont]
                  cases hcl : classify (fullLine ++ trimRight (stripComment
                      (l.data.dropWhile IS_WHITE))) with
                  | inc tol arg =>
                      dsimp only
                      cases (settings_include E (fix_relative_path arg path)
                          (⟨path, ls, linenum + 1⟩ :: rest) tol).2 with
                      | none => exact ih _ rfl rfl hbal hc0 hc1
                      | some m => exact hbal
                  | assign key raw =>
                      dsimp only
                      by_cases hsk : skip > 0
                      · rw [if_pos hsk]; exact ih _ rfl rfl hbal hc0 hc1
                      · rw [if_neg hsk]
                        have hsk0 : skip = 0 := by omega
                        subst hsk0
                        have hb2 := prefBal_append_kv trace key
                          (valueOf E.getv raw).1.asString hbal
                        have e1 : opensIn [Event.kv key (valueOf E.getv raw).1.asString] = 0 := rfl
                        have e2 : closesIn [Event.kv key (valueOf E.getv raw).1.asString] = 0 := rfl
                        have ha1 := opensIn_append trace
                          [Event.kv key (valueOf E.getv raw).1.asString]
                        have ha2 := closesIn_append trace
                          [Event.kv key (valueOf E.getv raw).1.asString]
                        cases E.kvcb key (valueOf E.getv raw).1.asString with
                        | none =>
                            refine ih _ rfl rfl hb2 ?_ ?_ <;> dsimp only <;> intro h <;> omega
                        | some m => exact hb2
                  | expectEq => exact hbal
                  | secOpen key nm =>
                      dsimp only
                      by_cases hsk : skip > 0
                      · rw [if_pos hsk]
                        have hx := hc1 (by omega)
                        refine ih _ rfl rfl hbal ?_ ?_ <;> dsimp only <;> intro h <;> omega
                      · rw [if_neg hsk, hE]
                        have hsk0 : skip = 0 := by omega
                        subst hsk0
                        dsimp only
                        have hb2 := prefBal_append_open trace key nm hbal
                        have e1 : opensIn [Event.secOpen key nm] = 1 := rfl
                        have e2 : closesIn [Event.secOpen key nm] = 0 := rfl
                        have ha1 := opensIn_append trace [Event.secOpen key nm]
                        have ha2 := closesIn_append trace [Event.secOpen key nm]
                        cases (scb.onOpen key nm).2 with
                        | some m => exact hb2
                        | none =>
                            cases hb : (scb.onOpen key nm).1 with
                            | true =>
                                refine ih _ rfl rfl hb2 ?_ ?_ <;> dsimp only <;> intro h <;>
                                  omega
                            | false =>
                                refine ih _ rfl rfl hb2 ?_ ?_ <;> dsimp only <;> intro h <;>
                                  omega
                  | secClose =>
                      dsimp only
                      by_cases h0 : sections = 0
                      · rw [if_pos h0]; exact hbal
                      · rw [if_neg h0]
                        by_cases hsk : skip > 0
                        · rw [if_pos hsk]
                          have hx := hc1 (by omega)
                          refine ih _ rfl rfl hbal ?_ ?_ <;> dsimp only <;> intro h <;> omega
                        · rw [if_neg hsk, hE]
                          have hsk0 : skip = 0 := by omega
                          subst hsk0
                          dsimp only
                          have hlt : closesIn trace < opensIn trace := by
                            have := hc0 rfl; omega
                          have hb2 := prefBal_append_close trace hbal hlt
                          have e1 : opensIn [Event.secClose] = 0 := rfl
                          have e2 : closesIn [Event.secClose] = 1 := rfl
                          have ha1 := opensIn_append trace [Event.secClose]
                          have ha2 := closesIn_append trace [Event.secClose]
                          cases scb.onClose with
                          | some m => exact hb2
                          | none =>
                              rw [if_neg (fun h => h0 h.symm)]
                              refine ih _ rfl rfl hb2 ?_ ?_ <;> dsimp only <;> intro h <;>
                                omega

/-- Claim C1 (amended): the internal depth counter never goes negative —
a `}` at depth 0 fails with `Unexpected '}'` (second conjunct) — and in
a selector-free parse the callback event stream is prefix-balanced:
no prefix of the trace has more close events than open events (first
conjunct, for every environment, file and fuel).  However, the claim's
stronger statements fail on the code: a successful parse may leave
opens strictly above closes (an unmatched `{` at end of input parses
successfully — see the counterexample), and with a selector plus a
section callback that rejects the targeted section, close events can
even outnumber open events (third conjunct). -/
theorem c1_depth_amended :
    (∀ (E : Env) (path : String) (fuel n : Nat),
        closesIn (((settings_read_i E path none fuel).2).take n) ≤
          opensIn (((settings_read_i E path none fuel).2).take n)) ∧
    settings_read_i envLoneClose "p" none 10 =
      (.failure "Error in configuration file p line 1: Unexpected '\x7d'", []) ∧
    settings_read_i envRejectTarget "p" (some "a/b/c") 20 =
      (.success, [Event.secOpen "t" "c", Event.secClose, Event.secClose]) := by
  refine ⟨?_, by decide, by decide⟩
  intro E path fuel n
  unfold settings_read_i
  dsimp only [Option.map_none', Option.isSome_none, Bool.false_eq_true, if_false]
  cases hopen : E.fs path with
  | err m =>
      dsimp only
      rw [List.take_nil]
      exact Nat.le_refl 0
  | ok ls =>
      dsimp only
      cases hsect : E.sectcb with
      | some scb =>
          refine c1_balance_loop E scb hsect fuel _ rfl rfl ?_ ?_ ?_ n
          · intro n2; dsimp only; rw [List.take_nil]; exact Nat.le_refl 0
          · intro _; dsimp only; exact Nat.le_refl 0
          · intro h; simp at h
      | none =>
          obtain ⟨ho, hc⟩ := c1_nosect_loop E hsect fuel
            { stack := [⟨path, ls, 0⟩], fullLine := [], selRem := none,
              skip := if false = true then 1 else 0,
              sections := 0, rootSection := 0, lastSection := none, trace := [] } rfl rfl
          have h1 : closesIn ((settingsReadLoop E fuel
              { stack := [⟨path, ls, 0⟩], fullLine := [], selRem := none,
                skip := if false = true then 1 else 0,
                sections := 0, rootSection := 0, lastSection := none, trace := [] }).2.take n) ≤
              closesIn (settingsReadLoop E fuel
              { stack := [⟨path, ls, 0⟩], fullLine := [], selRem := none,
                skip := if false = true then 1 else 0,
                sections := 0, rootSection := 0, lastSection := none, trace := [] }).2 :=
            List.Sublist.countP_le _ (List.take_sublist n _)
          omega

/-! ### Claim C5: quoted vs. unquoted values -/

theorem takeWhile_append_stop {p : Char → Bool} :
    ∀ (xs : List Char) (y : Char) (ys : List Char), (∀ x ∈ xs, p x = true) → p y = false →
      (xs ++ y :: ys).takeWhile p = xs ∧ (xs ++ y :: ys).dropWhile p = y :: ys ∧
        (xs ++ y :: ys).drop xs.length = y :: ys := by
  intro xs
  induction xs with
  | nil =>
      intro y ys _ hy
      refine ⟨?_, ?_, rfl⟩
      · simp [List.takeWhile_cons, hy]
      · simp [List.dropWhile_cons, hy]
  | cons a t ih =>
      intro y ys hall hy
      have ha : p a = true := hall a (List.mem_cons_self _ _)
      have := ih y ys (fun x hx => hall x (List.mem_cons_of_mem _ hx)) hy
      refine ⟨?_, ?_, ?_⟩
      · simp [List.takeWhile_cons, ha, this.1]
      · simp [List.dropWhile_cons, ha, this.2.1]
      · simp only [List.cons_append, List.length_cons, List.drop_succ_cons]
        exact this.2.2

theorem stripCommentGo_no_hash :
    ∀ (l : List Char) (st : Option Char) (b : Bool), '#' ∉ l → stripCommentGo st b l = l := by
  intro l
  induction l with
  | nil => intro st b _; cases st <;> cases b <;> rfl
  | cons c rest ih =>
      intro st b h
      have hc : c ≠ '#' := fun hcc => h (by rw [hcc]; exact List.mem_cons_self _ _)
      have hr : '#' ∉ rest := fun hrr => h (List.mem_cons_of_mem _ hrr)
      cases b with
      | true =>
          cases st with
          | none => rw [stripCommentGo, ih _ _ hr]
          | some q => rw [stripCommentGo, ih _ _ hr]
      | false =>
          cases st with
          | some q =>
              rw [stripCommentGo]
              by_cases h1 : c = q
              · rw [if_pos h1, ih _ _ hr]
              · rw [if_neg h1]
                by_cases h2 : (c = '\\' && !rest.isEmpty) = true
                · rw [if_pos h2, ih _ _ hr]
                · rw [if_neg h2, ih _ _ hr]
          | none =>
              rw [stripCommentGo]
              by_cases h1 : (c = '\'' || c = '"') = true
              · rw [if_pos h1, ih _ _ hr]
              · rw [if_neg h1, if_neg hc, ih _ _ hr]

theorem trimRight_concat (l : List Char) (c : Char) (hc : IS_WHITE c = false) :
    trimRight (l ++ [c]) = l ++ [c] := by
  unfold trimRight
  rw [List.reverse_append]
  simp [List.dropWhile_cons, hc]

theorem valueOf_quoted (getv : String → Option String) (v : List Char) (q : Char)
    (hq : q = '"' ∨ q = '\'') :
    valueOf getv (q :: v ++ [q]) = (str_unescape v, true) := by
  unfold valueOf
  have hl : (q :: v ++ [q]).getLast? = some q := by
    rw [show q :: v ++ [q] = (q :: v) ++ [q] from rfl, List.getLast?_concat]
  have hd : ((q :: v ++ [q]).drop 1).dropLast = v := by
    rw [show (q :: v ++ [q]).drop 1 = v ++ [q] from rfl, List.dropLast_concat]
  rw [if_pos]
  · rw [hd]
  · refine ⟨by simp, ?_⟩
    rcases hq with rfl | rfl
    · exact Or.inl ⟨rfl, hl⟩
    · exact Or.inr ⟨rfl, hl⟩

theorem valueOf_unquoted (getv : String → Option String) (v : List Char)
    (hnq : ¬ ((v.head? = some '"' ∧ v.getLast? = some '"') ∨
        (v.head? = some '\'' ∧ v.getLast? = some '\''))) :
    valueOf getv v = (expand_environment_vars getv v, false) := by
  unfold valueOf
  rw [if_neg]
  intro h
  exact hnq h.2

/-- The generic single-assignment-line parse: a line `k = val` with a
well-formed key and a value whose boundary characters survive trimming
delivers exactly one key-value event carrying `valueOf` of the raw
value. -/
theorem c5_parse (E : Env) (k val : List Char) (vh vl : Char)
    (hk : ∀ c ∈ k, IS_WHITE c = false ∧ c ≠ '=' ∧ c ≠ '#') (hkne : k ≠ [])
    (hki : k.asString ≠ "!include") (hkt : k.asString ≠ "!include_try")
    (hvh : val.head? = some vh) (hvhw : IS_WHITE vh = false)
    (hvl : val.getLast? = some vl) (hvlw : IS_WHITE vl = false) (hvlb : vl ≠ '\\')
    (hhashv : '#' ∉ val) :
    (settings_read_i
        { E with fs := fun p2 => if p2 = "p" then
            OpenRes.ok [(k ++ ' ' :: '=' :: ' ' :: val).asString] else OpenRes.err "x" }
        "p" none 3).2 = [Event.kv k.asString (valueOf E.getv val).1.asString] := by
  obtain ⟨kh, kt, rfl⟩ : ∃ kh kt, k = kh :: kt := by
    cases k with
    | nil => exact absurd rfl hkne
    | cons a b => exact ⟨a, b, rfl⟩
  have hvne : val ≠ [] := by
    intro h; rw [h] at hvh; cases hvh
  obtain ⟨vh2, vt, hvcons⟩ : ∃ a b, val = a :: b := by
    cases val with
    | nil => exact absurd rfl hvne
    | cons a b => exact ⟨a, b, rfl⟩
  have hvh2 : vh2 = vh := by
    rw [hvcons] at hvh
    exact Option.some.inj hvh.symm |>.symm
  subst hvh2
  set L : List Char := (kh :: kt) ++ ' ' :: '=' :: ' ' :: val with hL
  have hkh := hk kh (List.mem_cons_self _ _)
  have hhashL : '#' ∉ L := by
    rw [hL]
    intro hmem
    rcases List.mem_append.mp hmem with hmem | hmem
    · exact (hk '#' hmem).2.2 rfl
    · rcases List.mem_cons.mp hmem with h1 | hmem
      · cases h1
      · rcases List.mem_cons.mp hmem with h1 | hmem
        · cases h1
        · rcases List.mem_cons.mp hmem with h1 | hmem
          · cases h1
          · exact hhashv hmem
  have hdrop : L.dropWhile IS_WHITE = L := by
    rw [hL, List.cons_append, List.dropWhile_cons, hkh.1]
    simp
  have hstrip : stripComment L = L := stripCommentGo_no_hash L none false hhashL
  have hval2 : val.dropLast ++ [vl] = val := by
    have h1 := List.dropLast_append_getLast hvne
    have h2 : val.getLast hvne = vl := by
      rw [List.getLast?_eq_getLast val hvne] at hvl
      exact Option.some.inj hvl
    rw [h2] at h1
    exact h1
  have hLdec : L = ((kh :: kt) ++ ' ' :: '=' :: ' ' :: val.dropLast) ++ [vl] := by
    rw [hL]
    conv_lhs => rw [← hval2]
    simp [List.append_assoc]
  have htrim : trimRight L = L := by
    rw [hLdec]
    exact trimRight_concat _ _ hvlw
  have hlastL : L.getLast? = some vl := by
    rw [hLdec, List.getLast?_concat]
  have hsplit := @takeWhile_append_stop (fun c => !IS_WHITE c && c != '=')
    (kh :: kt) ' ' ('=' :: ' ' :: val)
    (fun c hc => by simp [Bool.and_eq_true, bne_iff_ne, (hk c hc).1, (hk c hc).2.1])
    (by decide)
  have htk : L.takeWhile (fun c => !IS_WHITE c && c != '=') = kh :: kt := by
    rw [hL]; exact hsplit.1
  have hdrop2 : L.drop (kh :: kt).length = ' ' :: '=' :: ' ' :: val := by
    rw [hL]; exact hsplit.2.2
  have hdw1 : List.dropWhile IS_WHITE (' ' :: '=' :: ' ' :: val) = '=' :: ' ' :: val := rfl
  have hKS : keySplit L = (kh :: kt, '=' :: ' ' :: val) := by
    unfold keySplit
    dsimp only
    rw [htk, hdrop2, hdw1]
  have hdwv : List.dropWhile IS_WHITE (' ' :: val) = val := by
    rw [List.dropWhile_cons]
    simp only [show IS_WHITE ' ' = true from rfl, if_true]
    rw [hvcons, List.dropWhile_cons, hvhw]
    simp
  have hclass : classify L = LineForm.assign (kh :: kt).asString val := by
    unfold classify
    rw [hKS]
    dsimp only
    rw [if_neg hkt, if_neg hki]
    show LineForm.assign (kh :: kt).asString (List.dropWhile IS_WHITE (' ' :: val)) =
      LineForm.assign (kh :: kt).asString val
    rw [hdwv]
  have hcom : ¬ (L.isEmpty = true ∨ L.head? = some '#') := by
    rw [hL]
    intro h
    rcases h with h | h
    · simp at h
    · exact hkh.2.2 (Option.some.inj h)
  have hcont : ¬ (L.getLast? = some '\\') := by
    rw [hlastL]
    intro h
    exact hvlb (Option.some.inj h)
  unfold settings_read_i
  dsimp only
  rw [if_pos rfl]
  dsimp only
  simp only [Option.map_none', Option.isSome_none, Bool.false_eq_true, if_false]
  rw [settingsReadLoop]
  dsimp only
  rw [show (List.asString L).data = L from rfl]
  rw [hdrop, if_neg hcom, hstrip, htrim, if_neg hcont, List.nil_append, hclass]
  dsimp only
  rw [if_neg (lt_irrefl 0)]
  cases hkv : E.kvcb (kh :: kt).asString (valueOf E.getv val).1.asString with
  | none => rfl
  | some m => rfl

/-- Claim C5: a value that begins and ends with the same quote character
(`"` or `'`) is delivered to the key-value callback with the outer
quotes stripped and backslash escapes removed, and is *not*
environment-expanded (the delivered value does not depend on `E.getv`);
an unquoted value *is* environment-expanded.  The trailing conjuncts
pin down the expansion semantics: `$ENV:NAME` at the start of the value
or after whitespace is replaced by the environment's value of `NAME`
(`NAME` terminated by the next space or the end of the string, the
empty string when unset), and every other `$` is copied verbatim. -/
theorem c5_value_quoting :
    (∀ (E : Env) (k v : List Char) (q : Char),
        (∀ c ∈ k, IS_WHITE c = false ∧ c ≠ '=' ∧ c ≠ '#') → k ≠ [] →
        k.asString ≠ "!include" → k.asString ≠ "!include_try" →
        (q = '"' ∨ q = '\'') → '#' ∉ v →
        (settings_read_i
            { E with fs := fun p2 => if p2 = "p" then
                OpenRes.ok [(k ++ ' ' :: '=' :: ' ' :: (q :: v ++ [q])).asString]
              else OpenRes.err "x" }
            "p" none 3).2 = [Event.kv k.asString (str_unescape v).asString]) ∧
    (∀ (E : Env) (k v : List Char) (vh vl : Char),
        (∀ c ∈ k, IS_WHITE c = false ∧ c ≠ '=' ∧ c ≠ '#') → k ≠ [] →
        k.asString ≠ "!include" → k.asString ≠ "!include_try" →
        v.head? = some vh → IS_WHITE vh = false →
        v.getLast? = some vl → IS_WHITE vl = false → vl ≠ '\\' → '#' ∉ v →
        ¬ ((v.head? = some '"' ∧ v.getLast? = some '"') ∨
            (v.head? = some '\'' ∧ v.getLast? = some '\'')) →
        (settings_read_i
            { E with fs := fun p2 => if p2 = "p" then
                OpenRes.ok [(k ++ ' ' :: '=' :: ' ' :: v).asString] else OpenRes.err "x" }
            "p" none 3).2 =
          [Event.kv k.asString (expand_environment_vars E.getv v).asString]) ∧
    expand_environment_vars (envOf [("HOME", "/r")]) "$ENV:HOME".data = "/r".data ∧
    expand_environment_vars (envOf [("HOME", "/r")]) "a $ENV:HOME b".data = "a /r b".data ∧
    expand_environment_vars (envOf [("HOME", "/r")]) "x$ENV:HOME".data = "x$ENV:HOME".data ∧
    expand_environment_vars (envOf [("HOME", "/r")]) "$ENV:NOPE x".data = " x".data ∧
    expand_environment_vars (envOf [("HOME", "/r")]) "cost $5 and $ENV:HOME".data =
      "cost $5 and /r".data := by
  refine ⟨?_, ?_, by decide, by decide, by decide, by decide, by decide⟩
  · intro E k v q hk hkne hki hkt hq hhash
    have hvh : (q :: v ++ [q]).head? = some q := rfl
    have hvl : (q :: v ++ [q]).getLast? = some q := by
      rw [show q :: v ++ [q] = (q :: v) ++ [q] from rfl, List.getLast?_concat]
    have hqw : IS_WHITE q = false := by rcases hq with rfl | rfl <;> rfl
    have hqb : q ≠ '\\' := by rcases hq with rfl | rfl <;> decide
    have hhash2 : '#' ∉ q :: v ++ [q] := by
      intro hmem
      rcases List.mem_cons.mp hmem with h1 | hmem
      · rcases hq with rfl | rfl <;> exact absurd h1 (by decide)
      · rcases List.mem_append.mp hmem with hmem | hmem
        · exact hhash hmem
        · rcases List.mem_cons.mp hmem with h1 | h1
          · rcases hq with rfl | rfl <;> exact absurd h1 (by decide)
          · cases h1
    have hmain := c5_parse E k (q :: v ++ [q]) q q hk hkne hki hkt hvh hqw hvl hqw hqb hhash2
    rw [hmain, valueOf_quoted E.getv v q hq]
  · intro E k v vh vl hk hkne hki hkt hvh hvhw hvl hvlw hvlb hhash hnq
    have hmain := c5_parse E k v vh vl hk hkne hki hkt hvh hvhw hvl hvlw hvlb hhash
    rw [hmain, valueOf_unquoted E.getv v hnq]

/-- Witness for C5: both parse laws applied at concrete inputs — the
quoted value `"a\bc"` delivering `abc` untouched by the environment,
and the unquoted value `$ENV:HOME` delivering the expansion. -/
theorem c5_witness :
    (settings_read_i
        { envHomeR with
            fs := fun p2 => if p2 = "p" then
              OpenRes.ok [("key".data ++ ' ' :: '=' :: ' ' ::
                ('"' :: "a\\bc".data ++ ['"'])).asString] else OpenRes.err "x" }
        "p" none 3).2 = [Event.kv ("key".data).asString (str_unescape "a\\bc".data).asString] ∧
    (settings_read_i
        { envHomeR with
            fs := fun p2 => if p2 = "p" then
              OpenRes.ok [("key".data ++ ' ' :: '=' :: ' ' :: "$ENV:HOME".data).asString]
            else OpenRes.err "x" }
        "p" none 3).2 =
      [Event.kv ("key".data).asString
        (expand_environment_vars envHomeR.getv "$ENV:HOME".data).asString] :=
  ⟨c5_value_quoting.1 envHomeR "key".data "a\\bc".data '"' (by decide) (by decide) (by decide)
      (by decide) (Or.inl rfl) (by decide),
   c5_value_quoting.2.1 envHomeR "key".data "$ENV:HOME".data '$' 'E' (by decide) (by decide)
      (by decide) (by decide) rfl (by decide) (by decide) (by decide) (by decide) (by decide)
      (by decide)⟩
